import Mathlib

/-!
Verification of `pyznap`'s process-execution core (`src/process.py`).

The development shallowly embeds the module's data model and operations:

* the Python values that flow through keyword-argument dictionaries (`PyVal`,
  `Kwargs`);
* the ZFS error taxonomy and the stderr classifier of
  `CompletedProcess.check_returncode` (lines 42-61), including an exact model
  of the Python regular-expression search
  `re.search(r"^cannot ([^ ]+(?: [^ ]+)*?) ([^ ]+): (.+)$", stderr)`
  (without `re.MULTILINE`, `^` matches only at the start of the string and
  `$` only at the end or just before one final newline);
* the tabular output decoder of `check_output` (line 84), with Python's
  `str.splitlines` and `str.split` semantics;
* the `check_output` orchestration (lines 65-84), parameterised over the
  semantics of the spawned command;
* the local and remote branches of `run` (lines 87-122), instrumented with the
  data they write to the child (local) or the remote stdin handle (remote).

External collaborators (the spawned child process, the paramiko channel) are
modelled as oracles supplied to the runner, so the theorems quantify over
every possible behaviour of the wrapped command.
-/

namespace Pyznap

/-- The single-quote character `'` (codepoint 39), used by
`check_returncode` to unquote dataset names. -/
def quoteChar : Char := Char.ofNat 39

/-! ### Python values and keyword-argument dictionaries -/

/-- Python values that appear in the keyword arguments of `check_output` and
`run`: `None`, booleans, text strings, byte strings (a byte payload, as a list
of byte values), the `subprocess.PIPE` sentinel, and opaque file objects. -/
inductive PyVal
  | none
  | bool (b : Bool)
  | str (s : String)
  | bytes (b : List Nat)
  | pipeConst
  | fileHandle (id : Nat)
  deriving DecidableEq, Repr

/-- Python truthiness for the modelled values: `None` and `False` are falsy,
empty strings and empty byte strings are falsy, `subprocess.PIPE` (the
integer -1) and file objects are truthy. -/
def pyTruthy : PyVal → Bool
  | .none => false
  | .bool b => b
  | .str s => !s.isEmpty
  | .bytes b => !b.isEmpty
  | .pipeConst => true
  | .fileHandle _ => true

/-- A Python `**kwargs` dictionary: an association list from names to values. -/
abbrev Kwargs := List (String × PyVal)

/-- Dictionary lookup, `kwargs[k]` / `kwargs.get(k)`. -/
def kwGet : Kwargs → String → Option PyVal
  | [], _ => Option.none
  | (k1, v) :: rest, k => if k1 = k then some v else kwGet rest k

/-- Dictionary lookup with a default, `kwargs.get(k, d)`. -/
def kwGetD (kw : Kwargs) (k : String) (d : PyVal) : PyVal :=
  (kwGet kw k).getD d

/-- Key membership, `k in kwargs`. -/
def kwContains (kw : Kwargs) (k : String) : Bool :=
  (kwGet kw k).isSome

/-- Dictionary update, `kwargs[k] = v`: replaces the value of an existing key
in place, otherwise appends the binding. -/
def kwSet : Kwargs → String → PyVal → Kwargs
  | [], k, v => [(k, v)]
  | (k1, v1) :: rest, k, v =>
      if k1 = k then (k, v) :: rest else (k1, v1) :: kwSet rest k v

theorem kwGet_kwSet_self (kw : Kwargs) (k : String) (v : PyVal) :
    kwGet (kwSet kw k v) k = some v := by
  induction kw with
  | nil => simp [kwSet, kwGet]
  | cons hd tl ih =>
      obtain ⟨k1, v1⟩ := hd
      by_cases h : k1 = k <;> simp [kwSet, kwGet, h, ih]

theorem kwGet_kwSet_ne (kw : Kwargs) (k k1 : String) (v : PyVal)
    (h : k1 ≠ k) : kwGet (kwSet kw k v) k1 = kwGet kw k1 := by
  induction kw with
  | nil => simp [kwSet, kwGet, Ne.symm h]
  | cons hd tl ih =>
      obtain ⟨k2, v2⟩ := hd
      by_cases h2 : k2 = k
      · subst h2
        simp [kwSet, kwGet, Ne.symm h]
      · by_cases h3 : k2 = k1 <;> simp [kwSet, kwGet, h, h2, h3, ih]

theorem kwContains_kwSet_ne (kw : Kwargs) (k k1 : String) (v : PyVal)
    (h : k1 ≠ k) : kwContains (kwSet kw k v) k1 = kwContains kw k1 := by
  simp [kwContains, kwGet_kwSet_ne kw k k1 v h]

theorem kwGetD_kwSet_ne (kw : Kwargs) (k k1 : String) (v d : PyVal)
    (h : k1 ≠ k) : kwGetD (kwSet kw k v) k1 d = kwGetD kw k1 d := by
  simp [kwGetD, kwGet_kwSet_ne kw k k1 v h]

/-! ### The ZFS error taxonomy (`process.py` lines 18-40) -/

/-- The five typed ZFS errors of `process.py`: `DatasetNotFoundError`,
`DatasetExistsError`, `DatasetBusyError`, `HoldTagNotFoundError`,
`HoldTagExistsError`. -/
inductive ZFSError
  | datasetNotFound
  | datasetExists
  | datasetBusy
  | holdTagNotFound
  | holdTagExists
  deriving DecidableEq, Repr

/-- The `strerror` reason string attached to each error class. -/
def strerror : ZFSError → String
  | .datasetNotFound => "dataset does not exist"
  | .datasetExists => "dataset already exists"
  | .datasetBusy => "dataset is busy"
  | .holdTagNotFound => "no such tag on this dataset"
  | .holdTagExists => "tag already exists on this dataset"

/-- The `errno` code attached to each error class (`ENOENT = 2`,
`EEXIST = 17`, `EBUSY = 16`). -/
def errnoOf : ZFSError → Nat
  | .datasetNotFound => 2
  | .datasetExists => 17
  | .datasetBusy => 16
  | .holdTagNotFound => 2
  | .holdTagExists => 17

/-- The tuple iterated by the `for error in (...)` loop of
`check_returncode` (lines 52-56), in source order. -/
def knownErrors : List ZFSError :=
  [.datasetNotFound, .datasetExists, .datasetBusy, .holdTagNotFound,
   .holdTagExists]

/-! ### The regular-expression engine of `check_returncode`

`re.search(r"^cannot ([^ ]+(?: [^ ]+)*?) ([^ ]+): (.+)$", stderr)` without
`re.MULTILINE`: the `^` restricts the search to a match starting at position
0, `[^ ]` matches every character except a space (newlines included), `.`
matches every character except `\n`, and `$` matches at the end of the string
or just before a final newline.  The functions below are a faithful
backtracking matcher specialised to this pattern; greedy `[^ ]+` atoms are
forced to the maximal space-free run (shortening one is never productive,
since the following pattern element always requires a space), and the lazy
group `(?: [^ ]+)*?` is realised by first trying to parse the object token at
the current position and only then consuming one more action token. -/

/-- The maximal space-free prefix of a character list together with the rest:
what a greedy `[^ ]+` consumes (its match), and the remaining input. -/
def maxTok : List Char → List Char × List Char
  | [] => ([], [])
  | c :: cs =>
      if c = ' ' then ([], c :: cs)
      else
        let p := maxTok cs
        (c :: p.1, p.2)

/-- What `(.+)$` captures from the remainder `c`: the remainder itself, minus
one final newline when present. -/
def cBody (c : List Char) : List Char :=
  if c.getLast? = some '\n' then c.dropLast else c

/-- Whether `(.+)$` matches the whole remainder `c`: the captured body must be
nonempty and newline-free. -/
def validC (c : List Char) : Bool :=
  decide (cBody c ≠ [] ∧ '\n' ∉ cBody c)

/-- Attempt to match `([^ ]+): (.+)$` at position `r` (just after a space).
The greedy group-2 atom first takes the whole space-free token; the required
literal `": "` then forces it back to the token minus one final colon, with
the following separator space serving as the space of `": "`.  Returns the
captured object and reason on success. -/
def matchB (r : List Char) : Option (List Char × List Char) :=
  if (maxTok r).2.head? = some ' ' ∧ (maxTok r).1.getLast? = some ':' ∧
      2 ≤ (maxTok r).1.length ∧ validC (maxTok r).2.tail then
    some ((maxTok r).1.dropLast, cBody ((maxTok r).2.tail))
  else Option.none

/-- The lazy loop over action tokens: positioned just after an action token,
the engine first requires a space; it then prefers to parse
`([^ ]+): (.+)$` immediately (lazy star takes zero further repetitions) and
only on failure consumes one more greedy action token and retries.  `fuel`
bounds the recursion (each step consumes at least one character). -/
def goEngine : Nat → List Char → List Char → Option (List Char × List Char × List Char)
  | 0, _, _ => Option.none
  | fuel + 1, acc, r =>
      if r.head? = some ' ' then
        match matchB r.tail with
        | some (b, c) => some (acc, b, c)
        | Option.none =>
            if (maxTok r.tail).1 = [] then Option.none
            else goEngine fuel (acc ++ ' ' :: (maxTok r.tail).1) (maxTok r.tail).2
      else Option.none

/-- `re.search(r"^cannot ([^ ]+(?: [^ ]+)*?) ([^ ]+): (.+)$", s)`: the match
is anchored at position 0, so `s` must begin with `cannot `; the first greedy
action token follows, then the lazy loop.  Returns the three captured groups
(action phrase, object token, reason). -/
def reSearchCannot (s : List Char) : Option (List Char × List Char × List Char) :=
  if s.take 7 = "cannot ".data then
    let p := maxTok (s.drop 7)
    if p.1 = [] then Option.none
    else goEngine s.length p.1 p.2
  else Option.none

/-- Lines 50-51 of `check_returncode`: if the first and last characters of the
matched object token are both a single quote, strip them
(`dataset = dataset[1:-1]`).  (The engine only produces nonempty tokens; on
the empty list the Python indexing would fail, and this model leaves it
unchanged.) -/
def stripQuotes (d : List Char) : List Char :=
  if d.head? = some quoteChar ∧ d.getLast? = some quoteChar then
    (d.drop 1).dropLast
  else d

/-- The error classifier of `check_returncode` (lines 44-58), as the spec's
pure `classify(exitCode, stderrText)`: only exit code 1 is inspected; the
stderr text is searched with the anchored pattern; the object token is
unquoted; the reason is compared verbatim against the known reason strings in
source order, and the first match produces the typed error together with the
offending dataset name. -/
def classify (retcode : Int) (stderr : String) : Option (ZFSError × String) :=
  if retcode = 1 then
    match reSearchCannot stderr.data with
    | some (_, d, reason) =>
        let ds := stripQuotes d
        match knownErrors.find? (fun e => (strerror e).data == reason) with
        | some e => some (e, (⟨ds⟩ : String))
        | Option.none => Option.none
    | Option.none => Option.none
  else Option.none

/-- The observable outcome of `CompletedProcess.check_returncode`
(lines 43-61): return normally, raise one of the five typed ZFS errors, or
fall through to `subprocess.CompletedProcess.check_returncode`, which raises
`CalledProcessError` exactly when the exit code is nonzero. -/
inductive CheckResult
  | ok
  | zfsRaise (e : ZFSError) (dataset : String)
  | calledProcess (retcode : Int)
  deriving DecidableEq, Repr

/-- `CompletedProcess.check_returncode` (lines 43-61). -/
def check_returncode (retcode : Int) (stderr : String) : CheckResult :=
  match classify retcode stderr with
  | some (e, d) => .zfsRaise e d
  | Option.none => if retcode ≠ 0 then .calledProcess retcode else .ok

/-! ### The tabular output decoder (`check_output`, line 84)

`None if out is None else [line.split('\t') for line in out.splitlines()]`. -/

/-- The line-boundary characters of Python's `str.splitlines`: `\n`, `\r`,
`\v` (0x0b), `\f` (0x0c), the separators 0x1c-0x1e, NEL (0x85), and the
Unicode line and paragraph separators (0x2028, 0x2029).  `\r\n` counts as a
single boundary. -/
def isLineBoundary (c : Char) : Bool :=
  c = '\n' || c = '\r' || c = Char.ofNat 0x0b || c = Char.ofNat 0x0c ||
  c = Char.ofNat 0x1c || c = Char.ofNat 0x1d || c = Char.ofNat 0x1e ||
  c = Char.ofNat 0x85 || c = Char.ofNat 0x2028 || c = Char.ofNat 0x2029

/-- Python's `str.splitlines` on a character list: splits at every line
boundary (`\r\n` as one), does not produce a final empty line for a trailing
boundary, and returns the empty list on empty input. -/
def splitlinesL : List Char → List (List Char)
  | [] => []
  | '\r' :: '\n' :: rest => [] :: splitlinesL rest
  | '\r' :: rest => [] :: splitlinesL rest
  | c :: rest =>
      if isLineBoundary c then [] :: splitlinesL rest
      else
        match splitlinesL rest with
        | [] => [[c]]
        | l :: ls => (c :: l) :: ls

/-- Python's `line.split('\t')` on a character list: splits at every tab,
preserving empty fields; the empty input yields one empty field. -/
def splitTabL : List Char → List (List Char)
  | [] => [[]]
  | c :: rest =>
      if c = '\t' then [] :: splitTabL rest
      else
        match splitTabL rest with
        | [] => [[c]]
        | f :: fs => (c :: f) :: fs

/-- The output decoder of `check_output` (line 84), the spec's
`decode(stdoutText)`: `None` stays the absence value; otherwise the text is
split into lines and each line into tab-separated fields. -/
def decode (out : Option String) : Option (List (List String)) :=
  match out with
  | Option.none => Option.none
  | some s =>
      some ((splitlinesL s.data).map
        (fun l => (splitTabL l).map (fun f => (⟨f⟩ : String))))

/-! ### `run` (lines 87-122), both backends

`run` is modelled one branch at a time.  The spawned child (local) and the
paramiko channel (remote) are external collaborators, supplied as oracles; the
runner's observable interactions with them (what is written to the child's
stdin, what is streamed to the remote stdin handle, whether the handle is
closed) are recorded in a trace so that theorems can speak about them. -/

/-- The result of `run`: a `CompletedProcess`, a raised
`subprocess.TimeoutExpired` (carrying whatever partial output was recovered),
or a raised `subprocess.CalledProcessError` when `check` is set. -/
inductive RunResult
  | completed (args : List String) (retcode : Int)
      (stdout stderr : Option String)
  | timeoutExpired (args : List String) (stdout stderr : Option String)
  | calledProcessError (retcode : Int) (args : List String)
      (stdout stderr : Option String)
  deriving DecidableEq, Repr

/-- The outcome of `Popen.communicate` on the spawned child, as a function of
the input payload it is called with: normal completion with captured streams
and an exit code, or `TimeoutExpired` (modelling lines 94-97, after which the
child is killed and the streams drained). -/
inductive CommOutcome
  | finished (stdout stderr : Option String) (retcode : Int)
  | timedOut (stdout stderr : Option String)
  deriving DecidableEq, Repr

/-- A spawned local child process: an oracle giving the outcome of
`communicate` for each possible input argument (`Option.none` models calling
`communicate` without an input payload). -/
structure LocalChild where
  communicate : Option PyVal → CommOutcome

/-- The observable interaction of the local branch of `run` with its child. -/
structure LocalTrace where
  /-- The keyword arguments forwarded verbatim to the `Popen` constructor
  (line 91, `sp.Popen(*popenargs, **kwargs)`). -/
  popenKwargs : Kwargs
  /-- The `input` argument passed to `process.communicate`. -/
  communicateInput : Option PyVal
  deriving DecidableEq, Repr

/-- The local branch of `run` (lines 90-104 and 122).  Line 93 calls
`process.communicate(timeout=timeout)`: the `input` parameter is omitted,
i.e. `None`, regardless of the keyword arguments of the call (the `input`
entry of `kwargs`, if any, is instead forwarded to the `Popen` constructor on
line 91, which is here abstracted into the already-spawned `child`).  On
completion, `check and retcode` raises `CalledProcessError`. -/
def runLocal (child : LocalChild) (popenargs : List String)
    (check : Bool) (kwargs : Kwargs) : LocalTrace × RunResult :=
  let inputWritten : Option PyVal := Option.none
  match child.communicate inputWritten with
  | .timedOut o e => (⟨kwargs, inputWritten⟩, .timeoutExpired popenargs o e)
  | .finished o e rc =>
      if check ∧ rc ≠ 0 then
        (⟨kwargs, inputWritten⟩, .calledProcessError rc popenargs o e)
      else (⟨kwargs, inputWritten⟩, .completed popenargs rc o e)

/-- The remote session used by the ssh branch of `run`: whether the transport
raises `socket.timeout` during the interaction, and otherwise the exit status
and the text collected from the remote stdout and stderr handles. -/
structure SSHExec where
  timesOut : Bool
  exitStatus : Int
  stdoutText : String
  stderrText : String

/-- The observable interaction of the remote branch of `run` with the remote
stdin handle. -/
structure RemoteTrace where
  /-- The value streamed to the remote stdin handle by
  `shutil.copyfileobj(kwargs['stdin'], stdin, 128*1024)`, when any. -/
  streamedToStdin : Option PyVal
  /-- Whether `stdin.close()` was reached. -/
  stdinClosed : Bool
  deriving DecidableEq, Repr

/-- The remote branch of `run` (lines 105-122).  On `socket.timeout` the
streams are set to `None` and `TimeoutExpired` is raised (lines 115-117).
Otherwise: line 110 guards the streaming on the truthiness of
`kwargs.get('stdin', None)`, line 111 streams that file object to the remote
stdin handle, line 112 closes the handle unconditionally, and `check and
retcode` raises `CalledProcessError` (lines 119-120). -/
def runRemote (sess : SSHExec) (popenargs : List String)
    (check : Bool) (kwargs : Kwargs) : RemoteTrace × RunResult :=
  if sess.timesOut then
    (⟨Option.none, false⟩, .timeoutExpired popenargs Option.none Option.none)
  else
    let stdinVal := kwGetD kwargs "stdin" .none
    let streamed := if pyTruthy stdinVal then some stdinVal else Option.none
    let rc := sess.exitStatus
    if check ∧ rc ≠ 0 then
      (⟨streamed, true⟩, .calledProcessError rc popenargs
        (some sess.stdoutText) (some sess.stderrText))
    else
      (⟨streamed, true⟩, .completed popenargs rc
        (some sess.stdoutText) (some sess.stderrText))

/-! ### `check_output` (lines 65-84) -/

/-- The outcome of `sp.run` as observed by `check_output`: since
`check_output` calls `run` without `check=True`, the only raised condition is
`TimeoutExpired`.  `stderr` is always captured as text here (`stderr=PIPE`
and `universal_newlines=True` are forced), while `stdout` keeps the `None`
possibility that line 84 tests for. -/
inductive RunOutcome
  | completed (retcode : Int) (stdout : Option String) (stderr : String)
  | timedOut (stdout stderr : Option String)

/-- The semantics of running the command, abstracting both backends of `run`:
given the positional arguments, timeout, session handle and keyword
arguments, the observed outcome. -/
structure RunSem where
  run : List String → Option Nat → Option Nat → Kwargs → RunOutcome

/-- The result of `check_output`: decoded records, a raised `ValueError`
(configuration misuse, carrying the offending argument name), a raised typed
ZFS error, a raised `CalledProcessError` (carrying the exit code and both
captured streams), or a propagated `TimeoutExpired`. -/
inductive COResult
  | records (out : Option (List (List String)))
  | valueError (arg : String)
  | zfsRaised (e : ZFSError) (dataset : String)
  | calledProcess (retcode : Int) (stdout : Option String) (stderr : String)
  | timedOut (stdout stderr : Option String)
  deriving DecidableEq, Repr

/-- Lines 74-77 of `check_output`: an explicit `input=None` is replaced by
the empty payload of the kind selected by `kwargs.get('universal_newlines',
False)` — the empty text string when that value is truthy, the empty byte
string otherwise. -/
def normalizeInput (kw : Kwargs) : Kwargs :=
  if kwContains kw "input" ∧ kwGet kw "input" = some .none then
    kwSet kw "input"
      (if pyTruthy (kwGetD kw "universal_newlines" (.bool false)) then .str ""
       else .bytes [])
  else kw

/-- The keyword arguments that `check_output` passes to `sp.run` (lines
79-80): the caller's (normalized) keyword arguments with `stdout=PIPE`,
`stderr=PIPE` and `universal_newlines=True` added. -/
def runKwargsOf (kw : Kwargs) : Kwargs :=
  kwSet (kwSet (kwSet kw "stdout" .pipeConst) "stderr" .pipeConst)
    "universal_newlines" (.bool true)

/-- `check_output` (lines 65-84): reject `stdout` and `universal_newlines`
overrides with `ValueError`; normalize an explicit `input=None`; run the
command; apply `check_returncode` to the result (raising a classified ZFS
error, or `CalledProcessError` on an unclassified nonzero exit); on a zero
exit decode the captured stdout into records. -/
def check_output (sem : RunSem) (popenargs : List String)
    (timeout : Option Nat) (ssh : Option Nat) (kwargs : Kwargs) : COResult :=
  if kwContains kwargs "stdout" then .valueError "stdout"
  else if kwContains kwargs "universal_newlines" then
    .valueError "universal_newlines"
  else
    match sem.run popenargs timeout ssh (runKwargsOf (normalizeInput kwargs)) with
    | .timedOut o e => .timedOut o e
    | .completed rc out err =>
        match check_returncode rc err with
        | .zfsRaise e d => .zfsRaised e d
        | .calledProcess rc1 => .calledProcess rc1 out err
        | .ok => .records (decode out)

/-! ### The spec-side error-line grammar

These definitions follow the specification's words, not the code: the error
line `cannot <action-phrase> <object>: <reason>`, where the action phrase is
one or more space-separated tokens and the object is a single token. -/

/-- Join tokens with single spaces (the shape of an action phrase). -/
def joinSp : List (List Char) → List Char
  | [] => []
  | [t] => t
  | t :: ts => t ++ ' ' :: joinSp ts

/-- An error-line of the grammar, built from an action phrase (a list of
tokens), an object token and a reason:
`cannot <a1 ... an> <object>: <reason>`. -/
def grammarChars (a : List (List Char)) (obj reason : List Char) : List Char :=
  "cannot ".data ++ joinSp a ++ ' ' :: (obj ++ ':' :: ' ' :: reason)

/-- Modelled from the spec's words (sections 4.1 and 6): `s` matches the
error-line grammar `cannot <action-phrase> <object>: <reason>` with the given
decomposition — the action phrase is one or more space-separated nonempty
tokens, and the object is the nonempty token immediately preceding the
colon. -/
def SpecGrammarMatch (s : String) (act : List (List Char))
    (obj reason : List Char) : Prop :=
  act ≠ [] ∧ (∀ t ∈ act, t ≠ [] ∧ ∀ c ∈ t, c ≠ ' ') ∧
  obj ≠ [] ∧ (∀ c ∈ obj, c ≠ ' ') ∧
  s.data = grammarChars act obj reason

instance (s : String) (act : List (List Char)) (obj reason : List Char) :
    Decidable (SpecGrammarMatch s act obj reason) := by
  unfold SpecGrammarMatch; infer_instance

/-! ### Engine correctness on grammar lines -/

/-- The text that remains after the engine has consumed the leading action
tokens `ts` (and the space before the first of them): the remaining action
tokens, then the object token, the colon-space, and the reason. -/
def tailBody (obj reason : List Char) : List (List Char) → List Char
  | [] => obj ++ ':' :: ' ' :: reason
  | t :: ts => t ++ ' ' :: tailBody obj reason ts

theorem joinSp_tailBody (obj reason : List Char) :
    ∀ (ts : List (List Char)) (t : List Char),
      joinSp (t :: ts) ++ ' ' :: (obj ++ ':' :: ' ' :: reason)
        = t ++ ' ' :: tailBody obj reason ts := by
  intro ts
  induction ts with
  | nil => intro t; simp [joinSp, tailBody]
  | cons t1 ts1 ih =>
      intro t
      calc joinSp (t :: t1 :: ts1) ++ ' ' :: (obj ++ ':' :: ' ' :: reason)
          = t ++ ' ' :: (joinSp (t1 :: ts1) ++ ' ' :: (obj ++ ':' :: ' ' :: reason)) := by
            simp [joinSp]
        _ = t ++ ' ' :: (t1 ++ ' ' :: tailBody obj reason ts1) := by rw [ih t1]
        _ = t ++ ' ' :: tailBody obj reason (t1 :: ts1) := by simp [tailBody]

theorem tailBody_length (obj reason : List Char) :
    ∀ ts : List (List Char), ts.length ≤ (tailBody obj reason ts).length := by
  intro ts
  induction ts with
  | nil => simp [tailBody]
  | cons t ts1 ih => simp [tailBody]; omega

theorem maxTok_append (t r : List Char) (h : ∀ c ∈ t, c ≠ ' ') :
    maxTok (t ++ ' ' :: r) = (t, ' ' :: r) := by
  induction t with
  | nil => simp [maxTok]
  | cons c t1 ih =>
      have hc : c ≠ ' ' := h c (List.mem_cons_self c t1)
      have ht1 : ∀ c1 ∈ t1, c1 ≠ ' ' := fun c1 hc1 => h c1 (List.mem_cons_of_mem c hc1)
      simp [maxTok, hc, ih ht1]

theorem cBody_of_no_newline (reason : List Char) (h : '\n' ∉ reason) :
    cBody reason = reason := by
  unfold cBody
  rw [if_neg]
  intro hl
  exact h (List.mem_of_mem_getLast? (by simp [hl]))

theorem validC_of_no_newline (reason : List Char) (hne : reason ≠ [])
    (h : '\n' ∉ reason) : validC reason = true := by
  unfold validC
  rw [cBody_of_no_newline reason h]
  simp [hne, h]

/-- `matchB` succeeds exactly as the pattern `([^ ]+): (.+)$` dictates on the
object-colon-reason suffix of a grammar line. -/
theorem matchB_tail (obj reason : List Char) (hobj : obj ≠ [])
    (hobjsp : ∀ c ∈ obj, c ≠ ' ') (hrne : reason ≠ []) (hrnl : '\n' ∉ reason) :
    matchB (obj ++ ':' :: ' ' :: reason) = some (obj, reason) := by
  have hassoc : obj ++ ':' :: ' ' :: reason = (obj ++ [':']) ++ ' ' :: reason := by
    simp
  have hsp : ∀ c ∈ obj ++ [':'], c ≠ ' ' := by
    intro c hc
    rcases List.mem_append.mp hc with h1 | h1
    · exact hobjsp c h1
    · simp at h1; subst h1; decide
  rw [hassoc]
  unfold matchB
  rw [maxTok_append (obj ++ [':']) reason hsp]
  have hlast : (obj ++ [':']).getLast? = some ':' := List.getLast?_concat obj
  have hlen : 2 ≤ (obj ++ [':']).length := by
    have : 1 ≤ obj.length := List.length_pos.mpr hobj
    simp; omega
  simp only [List.head?_cons, List.tail_cons, true_and]
  rw [if_pos ⟨hlast, hlen, validC_of_no_newline reason hrne hrnl⟩]
  rw [List.dropLast_concat, cBody_of_no_newline reason hrnl]

/-- On the failure side: when a token does not end with a colon, `matchB`
rejects it. -/
theorem matchB_tail_fail (t rest : List Char) (htsp : ∀ c ∈ t, c ≠ ' ')
    (htc : t.getLast? ≠ some ':') :
    matchB (t ++ ' ' :: rest) = Option.none := by
  unfold matchB
  rw [maxTok_append t rest htsp]
  rw [if_neg]
  intro hcond
  exact htc hcond.2.1

/-- The lazy loop reaches the object token of a grammar line and captures the
object and reason, for every action-token suffix `ts` in which no token ends
with a colon. -/
theorem goEngine_tailBody (obj reason : List Char) (hobj : obj ≠ [])
    (hobjsp : ∀ c ∈ obj, c ≠ ' ') (hrne : reason ≠ []) (hrnl : '\n' ∉ reason) :
    ∀ (ts : List (List Char)) (fuel : Nat) (acc : List Char),
      ts.length + 1 ≤ fuel →
      (∀ t ∈ ts, t ≠ [] ∧ (∀ c ∈ t, c ≠ ' ') ∧ t.getLast? ≠ some ':') →
      ∃ act, goEngine fuel acc (' ' :: tailBody obj reason ts)
        = some (act, obj, reason) := by
  intro ts
  induction ts with
  | nil =>
      intro fuel acc hfuel _
      match fuel, hfuel with
      | fuel + 1, _ =>
        refine ⟨acc, ?_⟩
        show goEngine (fuel + 1) acc (' ' :: tailBody obj reason []) = _
        unfold goEngine tailBody
        simp only [List.head?_cons, List.tail_cons, if_pos rfl]
        rw [matchB_tail obj reason hobj hobjsp hrne hrnl]
        simp
  | cons t ts1 ih =>
      intro fuel acc hfuel hts
      obtain ⟨htne, htsp, htc⟩ := hts t (List.mem_cons_self t ts1)
      have hts1 : ∀ t1 ∈ ts1, t1 ≠ [] ∧ (∀ c ∈ t1, c ≠ ' ') ∧ t1.getLast? ≠ some ':' :=
        fun t1 h1 => hts t1 (List.mem_cons_of_mem t h1)
      match fuel, hfuel with
      | fuel + 1, hfuel =>
        have hfuel1 : ts1.length + 1 ≤ fuel := by
          simp at hfuel; omega
        obtain ⟨act, hact⟩ := ih fuel (acc ++ ' ' :: t) hfuel1 hts1
        refine ⟨act, ?_⟩
        show goEngine (fuel + 1) acc (' ' :: tailBody obj reason (t :: ts1)) = _
        unfold goEngine tailBody
        simp only [List.head?_cons, List.tail_cons, if_pos rfl]
        rw [matchB_tail_fail t (tailBody obj reason ts1) htsp htc]
        rw [maxTok_append t (tailBody obj reason ts1) htsp]
        simp [htne]
        exact hact

/-- On a full grammar line whose action tokens after the first do not end
with a colon, the anchored search captures exactly the object token and the
reason. -/
theorem reSearchCannot_grammar (t0 : List Char) (ts : List (List Char))
    (obj reason : List Char)
    (ht0ne : t0 ≠ []) (ht0sp : ∀ c ∈ t0, c ≠ ' ')
    (hts : ∀ t ∈ ts, t ≠ [] ∧ (∀ c ∈ t, c ≠ ' ') ∧ t.getLast? ≠ some ':')
    (hobj : obj ≠ []) (hobjsp : ∀ c ∈ obj, c ≠ ' ')
    (hrne : reason ≠ []) (hrnl : '\n' ∉ reason) :
    ∃ act, reSearchCannot (grammarChars (t0 :: ts) obj reason)
      = some (act, obj, reason) := by
  have hshape : grammarChars (t0 :: ts) obj reason
      = "cannot ".data ++ (t0 ++ ' ' :: tailBody obj reason ts) := by
    unfold grammarChars
    rw [List.append_assoc, joinSp_tailBody obj reason ts t0]
  rw [hshape]
  have htake : ("cannot ".data ++ (t0 ++ ' ' :: tailBody obj reason ts)).take 7
      = "cannot ".data := rfl
  have hdrop : ("cannot ".data ++ (t0 ++ ' ' :: tailBody obj reason ts)).drop 7
      = t0 ++ ' ' :: tailBody obj reason ts := rfl
  have hfuel : ts.length + 1
      ≤ ("cannot ".data ++ (t0 ++ ' ' :: tailBody obj reason ts)).length := by
    have h1 := tailBody_length obj reason ts
    simp [List.length_append]
    omega
  obtain ⟨act, hact⟩ := goEngine_tailBody obj reason hobj hobjsp hrne hrnl ts
    ("cannot ".data ++ (t0 ++ ' ' :: tailBody obj reason ts)).length t0 hfuel hts
  refine ⟨act, ?_⟩
  unfold reSearchCannot
  rw [if_pos htake, hdrop, maxTok_append t0 (tailBody obj reason ts) ht0sp]
  show (if t0 = [] then Option.none
      else goEngine ("cannot ".data ++ (t0 ++ ' ' :: tailBody obj reason ts)).length t0
        (' ' :: tailBody obj reason ts)) = some (act, obj, reason)
  rw [if_neg ht0ne]
  exact hact

/-- The classifier on a full grammar line: exit code 1, well-formed tokens,
no action token after the first ending in a colon, and a recognised reason
produce the matching typed error carrying the unquoted object token. -/
theorem classify_grammar (a : List (List Char)) (obj : List Char)
    (err : ZFSError) (ha : a ≠ [])
    (hat : ∀ t ∈ a, t ≠ [] ∧ ∀ c ∈ t, c ≠ ' ')
    (hatc : ∀ t ∈ a.tail, t.getLast? ≠ some ':')
    (hobj : obj ≠ []) (hobjsp : ∀ c ∈ obj, c ≠ ' ') :
    classify 1 (⟨grammarChars a obj (strerror err).data⟩ : String)
      = some (err, (⟨stripQuotes obj⟩ : String)) := by
  match a, ha with
  | t0 :: ts, _ =>
    have hrne : (strerror err).data ≠ [] := by cases err <;> decide
    have hrnl : '\n' ∉ (strerror err).data := by cases err <;> decide
    obtain ⟨ht0ne, ht0sp⟩ := hat t0 (List.mem_cons_self t0 ts)
    have hts : ∀ t ∈ ts, t ≠ [] ∧ (∀ c ∈ t, c ≠ ' ') ∧ t.getLast? ≠ some ':' := by
      intro t h1
      obtain ⟨h2, h3⟩ := hat t (List.mem_cons_of_mem t0 h1)
      exact ⟨h2, h3, hatc t h1⟩
    obtain ⟨act, hact⟩ := reSearchCannot_grammar t0 ts obj (strerror err).data
      ht0ne ht0sp hts hobj hobjsp hrne hrnl
    unfold classify
    rw [if_pos rfl]
    show (match reSearchCannot (grammarChars (t0 :: ts) obj (strerror err).data) with
      | some (_, d, reason) =>
          match knownErrors.find? (fun e => (strerror e).data == reason) with
          | some e => some (e, (⟨stripQuotes d⟩ : String))
          | Option.none => Option.none
      | Option.none => Option.none) = some (err, (⟨stripQuotes obj⟩ : String))
    rw [hact]
    cases err <;> rfl

/-! ### Encoding records and the decode round trip -/

/-- Join character lists with a single separator character between them. -/
def joinWith (sep : Char) : List (List Char) → List Char
  | [] => []
  | [l] => l
  | l :: ls => l ++ sep :: joinWith sep ls

/-- From the round-trip claim's words: encode a sequence of records as text
by joining the fields of each record with tabs and the records with
newlines. -/
def encodeRecords (rs : List (List String)) : String :=
  (⟨joinWith '\n' (rs.map (fun r => joinWith '\t' (r.map String.data)))⟩ : String)

theorem mem_joinWith (sep : Char) :
    ∀ (ls : List (List Char)) (c : Char), c ∈ joinWith sep ls →
      c = sep ∨ ∃ l ∈ ls, c ∈ l := by
  intro ls
  induction ls with
  | nil => intro c hc; simp [joinWith] at hc
  | cons l ls1 ih =>
      intro c hc
      match ls1, hc with
      | [], hc => exact Or.inr ⟨l, by simp, by simpa [joinWith] using hc⟩
      | l2 :: ls2, hc =>
          rw [show joinWith sep (l :: l2 :: ls2) = l ++ sep :: joinWith sep (l2 :: ls2)
            from rfl] at hc
          rcases List.mem_append.mp hc with h1 | h1
          · exact Or.inr ⟨l, by simp, h1⟩
          · rcases List.mem_cons.mp h1 with h2 | h2
            · exact Or.inl h2
            · rcases ih c h2 with h3 | ⟨l3, h4, h5⟩
              · exact Or.inl h3
              · exact Or.inr ⟨l3, List.mem_cons_of_mem l h4, h5⟩

theorem splitTabL_of_no_tab (f : List Char) (hf : ∀ c ∈ f, c ≠ '\t') :
    splitTabL f = [f] := by
  induction f with
  | nil => rfl
  | cons c f1 ih =>
      have hc : c ≠ '\t' := hf c (List.mem_cons_self c f1)
      have h1 : ∀ c1 ∈ f1, c1 ≠ '\t' := fun c1 h => hf c1 (List.mem_cons_of_mem c h)
      unfold splitTabL
      rw [if_neg hc, ih h1]

theorem splitTabL_cons (c : Char) (rest : List Char) :
    splitTabL (c :: rest)
      = if c = '\t' then [] :: splitTabL rest
        else match splitTabL rest with
          | [] => [[c]]
          | f :: fs => (c :: f) :: fs := rfl

theorem splitTabL_append (f r : List Char) (hf : ∀ c ∈ f, c ≠ '\t') :
    splitTabL (f ++ '\t' :: r) = f :: splitTabL r := by
  induction f with
  | nil => simp [splitTabL]
  | cons c f1 ih =>
      have hc : c ≠ '\t' := hf c (List.mem_cons_self c f1)
      have h1 : ∀ c1 ∈ f1, c1 ≠ '\t' := fun c1 h => hf c1 (List.mem_cons_of_mem c h)
      show splitTabL (c :: (f1 ++ '\t' :: r)) = (c :: f1) :: splitTabL r
      rw [splitTabL_cons, if_neg hc, ih h1]

theorem splitTabL_joinWith :
    ∀ fs : List (List Char), fs ≠ [] → (∀ f ∈ fs, ∀ c ∈ f, c ≠ '\t') →
      splitTabL (joinWith '\t' fs) = fs := by
  intro fs
  induction fs with
  | nil => intro h; exact absurd rfl h
  | cons f fs1 ih =>
      intro _ hfs
      have hf : ∀ c ∈ f, c ≠ '\t' := hfs f (List.mem_cons_self f fs1)
      match fs1 with
      | [] => exact splitTabL_of_no_tab f hf
      | f2 :: fs2 =>
          rw [show joinWith '\t' (f :: f2 :: fs2) = f ++ '\t' :: joinWith '\t' (f2 :: fs2)
            from rfl]
          rw [splitTabL_append f (joinWith '\t' (f2 :: fs2)) hf]
          rw [ih (by simp) (fun f1 h1 => hfs f1 (List.mem_cons_of_mem f h1))]

theorem splitlinesL_newline_cons (rest : List Char) :
    splitlinesL ('\n' :: rest) = [] :: splitlinesL rest := rfl

set_option maxHeartbeats 1000000 in
theorem splitlinesL_cons_not_boundary (c : Char) (rest : List Char)
    (hc : isLineBoundary c = false) :
    splitlinesL (c :: rest)
      = match splitlinesL rest with
        | [] => [[c]]
        | l :: ls => (c :: l) :: ls := by
  have hcr : c ≠ '\r' := by
    intro h
    subst h
    exact absurd hc (by decide)
  rw [splitlinesL.eq_def]
  split
  next heq => simp at heq
  next rest1 heq =>
    rw [List.cons.injEq] at heq
    exact absurd heq.1 hcr
  next rest1 h1 heq =>
    rw [List.cons.injEq] at heq
    exact absurd heq.1 hcr
  next c1 rest1 h1 h2 heq =>
    rw [List.cons.injEq] at heq
    obtain ⟨e1, e2⟩ := heq
    subst e1
    subst e2
    rw [if_neg (by simp [hc])]

theorem splitlinesL_of_no_boundary (l : List Char) (hl : l ≠ [])
    (h : ∀ c ∈ l, isLineBoundary c = false) : splitlinesL l = [l] := by
  induction l with
  | nil => exact absurd rfl hl
  | cons c l1 ih =>
      have hc : isLineBoundary c = false := h c (List.mem_cons_self c l1)
      have h1 : ∀ c1 ∈ l1, isLineBoundary c1 = false :=
        fun c1 hm => h c1 (List.mem_cons_of_mem c hm)
      rw [splitlinesL_cons_not_boundary c l1 hc]
      match l1 with
      | [] => rfl
      | c2 :: l2 => rw [ih (by simp) h1]

theorem splitlinesL_append (l r : List Char)
    (h : ∀ c ∈ l, isLineBoundary c = false) :
    splitlinesL (l ++ '\n' :: r) = l :: splitlinesL r := by
  induction l with
  | nil => simp [splitlinesL_newline_cons]
  | cons c l1 ih =>
      have hc : isLineBoundary c = false := h c (List.mem_cons_self c l1)
      have h1 : ∀ c1 ∈ l1, isLineBoundary c1 = false :=
        fun c1 hm => h c1 (List.mem_cons_of_mem c hm)
      show splitlinesL (c :: (l1 ++ '\n' :: r)) = (c :: l1) :: splitlinesL r
      rw [splitlinesL_cons_not_boundary c (l1 ++ '\n' :: r) hc, ih h1]

theorem splitlinesL_joinWith :
    ∀ lines : List (List Char), lines ≠ [] →
      (∀ l ∈ lines, ∀ c ∈ l, isLineBoundary c = false) →
      lines.getLast? ≠ some [] →
      splitlinesL (joinWith '\n' lines) = lines := by
  intro lines
  induction lines with
  | nil => intro h; exact absurd rfl h
  | cons l lines1 ih =>
      intro _ hb hlast
      have hl : ∀ c ∈ l, isLineBoundary c = false := hb l (List.mem_cons_self l lines1)
      match lines1 with
      | [] =>
          have hlne : l ≠ [] := by
            intro h; exact hlast (by simp [h])
          exact splitlinesL_of_no_boundary l hlne hl
      | l2 :: lines2 =>
          rw [show joinWith '\n' (l :: l2 :: lines2) = l ++ '\n' :: joinWith '\n' (l2 :: lines2)
            from rfl]
          rw [splitlinesL_append l (joinWith '\n' (l2 :: lines2)) hl]
          rw [ih (by simp) (fun l1 h1 => hb l1 (List.mem_cons_of_mem l h1))
            (by rw [List.getLast?_cons_cons] at hlast; exact hlast)]

/-- A field is safe for the tab/newline encoding when it contains neither a
tab nor any of Python's line-boundary characters. -/
def fieldSafe (f : String) : Prop :=
  ∀ c ∈ f.data, c ≠ '\t' ∧ isLineBoundary c = false

instance (f : String) : Decidable (fieldSafe f) := by
  unfold fieldSafe; infer_instance

theorem joinWith_tab_ne_nil (r : List String) (hrne : r ≠ [])
    (hr1 : r ≠ [""]) : joinWith '\t' (r.map String.data) ≠ [] := by
  match r with
  | [f] =>
      show f.data ≠ []
      intro hd
      apply hr1
      have : f = "" := String.ext hd
      rw [this]
  | f1 :: f2 :: fs =>
      show f1.data ++ '\t' :: joinWith '\t' ((f2 :: fs).map String.data) ≠ []
      simp

/-- The decode/encode round trip: decoding the tab/newline encoding of a
record sequence reproduces it, provided every record is nonempty, every field
is free of tab and line-boundary characters, and the final record is not the
single empty field (whose empty final line the decoder would drop). -/
theorem decode_encodeRecords (rs : List (List String))
    (h : ∀ r ∈ rs, r ≠ [] ∧ ∀ f ∈ r, fieldSafe f)
    (hlast : rs.getLast? ≠ some [""]) :
    decode (some (encodeRecords rs)) = some rs := by
  have hmain : (splitlinesL (joinWith '\n'
      (rs.map (fun r => joinWith '\t' (r.map String.data))))).map
        (fun l => (splitTabL l).map (fun f => (⟨f⟩ : String))) = rs := by
    match rs with
    | [] => rfl
    | r0 :: rs1 =>
      have hsplit : splitlinesL (joinWith '\n'
          ((r0 :: rs1).map (fun r => joinWith '\t' (r.map String.data))))
          = (r0 :: rs1).map (fun r => joinWith '\t' (r.map String.data)) := by
        apply splitlinesL_joinWith
        · simp
        · intro l hl c hc
          obtain ⟨r, hr, rfl⟩ := List.mem_map.mp hl
          rcases mem_joinWith '\t' (r.map String.data) c hc with hceq | ⟨fd, hfd, hcf⟩
          · rw [hceq]; decide
          · obtain ⟨f, hf, rfl⟩ := List.mem_map.mp hfd
            exact (((h r hr).2 f hf) c hcf).2
        · intro hco
          rw [List.getLast?_map] at hco
          obtain ⟨rl, hrl, hrl0⟩ := Option.map_eq_some'.mp hco
          have hrlmem : rl ∈ r0 :: rs1 := List.mem_of_mem_getLast? (by simp [hrl])
          obtain ⟨hrlne, _⟩ := h rl hrlmem
          have hrl1 : rl ≠ [""] := by
            intro heq
            rw [heq] at hrl
            exact hlast hrl
          exact joinWith_tab_ne_nil rl hrlne hrl1 hrl0
      rw [hsplit, List.map_map]
      have hid : ∀ r ∈ r0 :: rs1,
          ((fun l => (splitTabL l).map (fun f => (⟨f⟩ : String)))
            ∘ (fun r => joinWith '\t' (r.map String.data))) r = r := by
        intro r hr
        obtain ⟨hrne, hrf⟩ := h r hr
        show (splitTabL (joinWith '\t' (r.map String.data))).map
          (fun f => (⟨f⟩ : String)) = r
        rw [splitTabL_joinWith (r.map String.data) (by simp [hrne]) ?_]
        · rw [List.map_map]
          have hcomp : ((fun f => (⟨f⟩ : String)) ∘ String.data)
              = (id : String → String) := by
            funext f; rfl
          rw [hcomp, List.map_id]
        · intro fd hfd c hc
          obtain ⟨f, hf, rfl⟩ := List.mem_map.mp hfd
          exact ((hrf f hf) c hc).1
      rw [List.map_congr_left hid]
      simp
  show some ((splitlinesL (encodeRecords rs).data).map
    (fun l => (splitTabL l).map (fun f => (⟨f⟩ : String)))) = some rs
  exact congrArg some hmain

/-! ### Claim theorems -/

/-- Claim C1: when the input payload is explicitly supplied as `None`, the
checked entry point normalizes it to the empty payload of the kind selected
by the request's text-decoding flag (`kwargs.get('universal_newlines',
False)`) — empty text when truthy, empty bytes otherwise — and the whole
`check_output` behaviour equals that of a request supplying that explicit
empty payload, for every command semantics. -/
theorem claim_C1_input_none_normalization (sem : RunSem)
    (popenargs : List String) (timeout : Option Nat) (ssh : Option Nat)
    (kwargs : Kwargs) (h : kwGet kwargs "input" = some .none) :
    (kwGet (normalizeInput kwargs) "input"
      = some (if pyTruthy (kwGetD kwargs "universal_newlines" (.bool false))
              then PyVal.str "" else PyVal.bytes []))
    ∧ check_output sem popenargs timeout ssh kwargs
      = check_output sem popenargs timeout ssh
          (kwSet kwargs "input"
            (if pyTruthy (kwGetD kwargs "universal_newlines" (.bool false))
             then PyVal.str "" else PyVal.bytes [])) := by
  have hvne : (if pyTruthy (kwGetD kwargs "universal_newlines" (.bool false))
      then PyVal.str "" else PyVal.bytes []) ≠ PyVal.none := by
    by_cases hb : pyTruthy (kwGetD kwargs "universal_newlines" (.bool false)) <;>
      simp [hb]
  have hnorm : normalizeInput kwargs
      = kwSet kwargs "input"
          (if pyTruthy (kwGetD kwargs "universal_newlines" (.bool false))
           then PyVal.str "" else PyVal.bytes []) := by
    unfold normalizeInput
    rw [if_pos ⟨by simp [kwContains, h], h⟩]
  have hnorm2 : normalizeInput (kwSet kwargs "input"
      (if pyTruthy (kwGetD kwargs "universal_newlines" (.bool false))
       then PyVal.str "" else PyVal.bytes []))
      = kwSet kwargs "input"
          (if pyTruthy (kwGetD kwargs "universal_newlines" (.bool false))
           then PyVal.str "" else PyVal.bytes []) := by
    unfold normalizeInput
    rw [if_neg]
    intro hcond
    rw [kwGet_kwSet_self] at hcond
    exact hvne (Option.some.inj hcond.2)
  constructor
  · rw [hnorm]
    exact kwGet_kwSet_self kwargs "input" _
  · unfold check_output
    rw [kwContains_kwSet_ne kwargs "input" "stdout" _ (by decide),
        kwContains_kwSet_ne kwargs "input" "universal_newlines" _ (by decide),
        hnorm, hnorm2]

/-- Claim C2 (code bug): the local branch of `run` never writes a supplied
input payload to the spawned child.  Line 93 calls
`process.communicate(timeout=timeout)` with the input argument omitted, so
for every request — including one whose keyword arguments carry an input
payload — the child observes no input: a child whose behaviour depends on
receiving input takes its no-input branch. -/
theorem claim_C2_local_input_never_written :
    (∀ (child : LocalChild) (popenargs : List String) (check : Bool)
        (kwargs : Kwargs),
      (runLocal child popenargs check kwargs).1.communicateInput = Option.none)
    ∧ (runLocal
        ⟨fun i => match i with
          | some _ => .finished (some "saw input") (some "") 0
          | Option.none => .finished (some "saw no input") (some "") 0⟩
        ["cat"] false [("input", PyVal.bytes [100, 97, 116, 97])]).2
      = .completed ["cat"] 0 (some "saw no input") (some "") := by
  constructor
  · intro child popenargs check kwargs
    dsimp only [runLocal]
    rcases h : child.communicate Option.none with ⟨o, e, rc⟩ | ⟨o, e⟩
    · show (if check = true ∧ rc ≠ 0
          then ((⟨kwargs, Option.none⟩ : LocalTrace),
            RunResult.calledProcessError rc popenargs o e)
          else ((⟨kwargs, Option.none⟩ : LocalTrace),
            RunResult.completed popenargs rc o e)).1.communicateInput
          = Option.none
      split <;> rfl
    · rfl
  · rfl

/-- Claim C5: for every exit code different from 1, the classifier returns no
typed domain error, whatever the error-stream text. -/
theorem claim_C5_classify_requires_exit_one (rc : Int) (s : String)
    (h : rc ≠ 1) : classify rc s = Option.none := by
  unfold classify
  rw [if_neg h]

/-- Witness for C5: exit code 2 with a text that would otherwise classify as
a busy dataset still yields no classification. -/
theorem claim_C5_witness :
    classify 2 "cannot destroy tank/b: dataset is busy" = Option.none :=
  claim_C5_classify_requires_exit_one 2
    "cannot destroy tank/b: dataset is busy" (by decide)

/-- Claim C7: the output decoder distinguishes empty output from absent
output: empty text decodes to the empty record sequence, the absence value
stays absent, and the two results differ. -/
theorem claim_C7_decode_empty_vs_absent :
    decode (some "") = some []
    ∧ decode Option.none = Option.none
    ∧ decode (some "") ≠ decode Option.none := by
  refine ⟨rfl, rfl, by decide⟩

/-- Counterexample to claim C3 as stated: the text
`cannot receive a: b: dataset is busy` matches the spec's grammar with action
phrase `receive a:`, object `b` and the recognised reason
`dataset is busy`, yet the classifier returns no classification at exit code
1 — the code splits at the first token-final colon-space (after `a:`), not at
the colon before the reason, and the resulting reason
`b: dataset is busy` is unrecognised. -/
theorem claim_C3_counterexample :
    SpecGrammarMatch "cannot receive a: b: dataset is busy"
      ["receive".data, "a:".data] "b".data "dataset is busy".data
    ∧ "dataset is busy" = strerror .datasetBusy
    ∧ classify 1 "cannot receive a: b: dataset is busy" = Option.none := by
  refine ⟨by decide, rfl, by decide⟩

/-- Claim C3 (amended): for every error-stream text of the exact shape
`cannot <a1 ... an> <object>: <reason>` — nonempty space-free tokens joined
by single spaces — in which no action token after the first ends with a
colon, and whose reason is one of the five known reason strings, the
classifier at exit code 1 returns the matching typed error carrying the
object with surrounding single quotes stripped.  Moreover, texts the anchored
search does not match, and matched texts with an unrecognised reason, yield
no classification even at exit code 1. -/
theorem claim_C3_classifier_grammar :
    (∀ (a : List (List Char)) (obj : List Char) (err : ZFSError),
      a ≠ [] → (∀ t ∈ a, t ≠ [] ∧ ∀ c ∈ t, c ≠ ' ') →
      (∀ t ∈ a.tail, t.getLast? ≠ some ':') →
      obj ≠ [] → (∀ c ∈ obj, c ≠ ' ') →
      classify 1 (⟨grammarChars a obj (strerror err).data⟩ : String)
        = some (err, (⟨stripQuotes obj⟩ : String)))
    ∧ (∀ s : String, reSearchCannot s.data = Option.none →
        classify 1 s = Option.none)
    ∧ (∀ (s : String) (act d r : List Char),
        reSearchCannot s.data = some (act, d, r) →
        (∀ e ∈ knownErrors, (strerror e).data ≠ r) →
        classify 1 s = Option.none) := by
  refine ⟨fun a obj err ha hat hatc hobj hobjsp =>
    classify_grammar a obj err ha hat hatc hobj hobjsp, ?_, ?_⟩
  · intro s hre
    unfold classify
    rw [if_pos rfl, hre]
  · intro s act d r hre hnone
    unfold classify
    rw [if_pos rfl, hre]
    have hfind : knownErrors.find? (fun e => (strerror e).data == r)
        = Option.none := by
      rw [List.find?_eq_none]
      intro e he
      simpa using hnone e he
    show (match knownErrors.find? (fun e => (strerror e).data == r) with
      | some e => some (e, (⟨stripQuotes d⟩ : String))
      | Option.none => Option.none) = Option.none
    rw [hfind]

/-- Witness for the amended C3: the scenario text
`cannot destroy 'tank/data': dataset is busy` classifies as the busy error
with the unquoted object `tank/data`, and a non-matching text classifies as
nothing. -/
theorem claim_C3_witness :
    classify 1 (⟨grammarChars ["destroy".data]
        (quoteChar :: "tank/data".data ++ [quoteChar])
        (strerror .datasetBusy).data⟩ : String)
      = some (.datasetBusy,
          (⟨stripQuotes (quoteChar :: "tank/data".data ++ [quoteChar])⟩ : String))
    ∧ classify 1 "plain text" = Option.none :=
  ⟨claim_C3_classifier_grammar.1 ["destroy".data]
      (quoteChar :: "tank/data".data ++ [quoteChar]) .datasetBusy
      (by decide) (by decide) (by decide) (by decide) (by decide),
   claim_C3_classifier_grammar.2.1 "plain text" (by decide)⟩

/-- Counterexample to claim C4 as stated: a recognised message preceded by
another output line is not classified — the search is anchored at the start
of the string (`^` without `re.MULTILINE`), so the classifier does not scan
the whole error text. -/
theorem claim_C4_counterexample :
    ("mount failed\ncannot destroy tank/data: dataset is busy" : String)
      = "mount failed\n" ++ "cannot destroy tank/data: dataset is busy"
    ∧ classify 1 "cannot destroy tank/data: dataset is busy"
      = some (.datasetBusy, "tank/data")
    ∧ classify 1 "mount failed\ncannot destroy tank/data: dataset is busy"
      = Option.none := by
  refine ⟨rfl, by decide, by decide⟩

/-- Claim C4 (amended): with exit code 1 the classifier recognises a message
only at the very start of the error text: any text whose first seven
characters are not `cannot ` yields no classification, a recognised message
preceded by other output yields no classification, while the same message at
the start of the text is classified. -/
theorem claim_C4_anchored_at_start :
    (∀ s : String, s.data.take 7 ≠ "cannot ".data →
      classify 1 s = Option.none)
    ∧ classify 1 "cannot destroy tank/a: dataset is busy"
      = some (.datasetBusy, "tank/a")
    ∧ classify 1 "zfs list output\ncannot destroy tank/a: dataset is busy"
      = Option.none := by
  refine ⟨?_, by decide, by decide⟩
  intro s h
  unfold classify reSearchCannot
  rw [if_pos rfl, if_neg h]

/-- Witness for the amended C4: a text that does not begin with `cannot `
yields no classification. -/
theorem claim_C4_witness :
    classify 1 "internal error: tank/a" = Option.none :=
  claim_C4_anchored_at_start.1 "internal error: tank/a" (by decide)

/-- Claim C6: in `check_output` the classifier governs every non-zero exit —
if it classifies, the typed error is raised; an unclassified non-zero exit
raises the generic `CalledProcessError` carrying the exit code and both
captured streams; and the output decoder runs, and its result is returned,
exactly when the exit code is 0. -/
theorem claim_C6_check_output_orchestration (sem : RunSem)
    (popenargs : List String) (timeout : Option Nat) (ssh : Option Nat)
    (kwargs : Kwargs) (rc : Int) (out : Option String) (errText : String)
    (h1 : kwContains kwargs "stdout" = false)
    (h2 : kwContains kwargs "universal_newlines" = false)
    (hrun : sem.run popenargs timeout ssh (runKwargsOf (normalizeInput kwargs))
      = .completed rc out errText) :
    (∀ e d, classify rc errText = some (e, d) →
      check_output sem popenargs timeout ssh kwargs = .zfsRaised e d)
    ∧ (classify rc errText = Option.none → rc ≠ 0 →
      check_output sem popenargs timeout ssh kwargs
        = .calledProcess rc out errText)
    ∧ (rc = 0 →
      check_output sem popenargs timeout ssh kwargs
        = .records (decode out)) := by
  have hco : check_output sem popenargs timeout ssh kwargs
      = match check_returncode rc errText with
        | .zfsRaise e d => .zfsRaised e d
        | .calledProcess rc1 => .calledProcess rc1 out errText
        | .ok => .records (decode out) := by
    unfold check_output
    rw [h1]
    rw [if_neg (by simp)]
    rw [h2]
    rw [if_neg (by simp)]
    rw [hrun]
  refine ⟨?_, ?_, ?_⟩
  · intro e d hcl
    rw [hco]
    unfold check_returncode
    rw [hcl]
  · intro hcl hrc
    rw [hco]
    unfold check_returncode
    rw [hcl, if_pos hrc]
  · intro hrc
    subst hrc
    rw [hco]
    unfold check_returncode
    have hcl : classify 0 errText = Option.none := by
      unfold classify
      rw [if_neg (by decide)]
    rw [hcl, if_neg (by simp)]

/-- Counterexample to claim C8 as stated: encoding the record sequence
`[["a"], [""]]` and decoding it loses the final record — Python's
`splitlines` drops the empty final line, so the empty field of the last
record is not preserved. -/
theorem claim_C8_counterexample :
    decode (some (encodeRecords [["a"], [""]])) = some [["a"]]
    ∧ some [["a"]] ≠ some [["a"], [""]] := by
  refine ⟨by decide, by decide⟩

/-- Claim C8 (amended): the decode/encode round trip reproduces the record
sequence, provided every record has at least one field, no field contains a
tab or a line-boundary character, and the final record is not the single
empty field (whose empty final line the decoder drops). -/
theorem claim_C8_roundtrip (rs : List (List String))
    (h : ∀ r ∈ rs, r ≠ [] ∧ ∀ f ∈ r, fieldSafe f)
    (hlast : rs.getLast? ≠ some [""]) :
    decode (some (encodeRecords rs)) = some rs :=
  decode_encodeRecords rs h hlast

/-- Witness for the amended C8: a concrete table with an empty interior field
round-trips. -/
theorem claim_C8_witness :
    decode (some (encodeRecords [["a", "b"], ["", "d"]]))
      = some [["a", "b"], ["", "d"]] :=
  claim_C8_roundtrip [["a", "b"], ["", "d"]] (by decide) (by decide)

/-- Claim C9: when the object token extracted by the classifier is the single
quote character, the equal-first-and-last test succeeds trivially and the
stripping yields the empty dataset name; in general, stripping applies to
every extracted token whose first and last characters are both the single
quote, the classifier then carrying `token[1:-1]`. -/
theorem claim_C9_single_quote_token :
    classify 1 ("cannot destroy " ++ (⟨[quoteChar]⟩ : String)
        ++ ": dataset is busy")
      = some (.datasetBusy, "")
    ∧ ∀ obj : List Char, obj ≠ [] → (∀ c ∈ obj, c ≠ ' ') →
        obj.head? = some quoteChar → obj.getLast? = some quoteChar →
        classify 1 (⟨grammarChars ["destroy".data] obj
            (strerror .datasetBusy).data⟩ : String)
          = some (.datasetBusy, (⟨(obj.drop 1).dropLast⟩ : String)) := by
  constructor
  · decide
  · intro obj h1 h2 h3 h4
    have hcg := classify_grammar ["destroy".data] obj .datasetBusy
      (by decide) (by decide) (by decide) h1 h2
    rw [hcg]
    have hstrip : stripQuotes obj = (obj.drop 1).dropLast := by
      unfold stripQuotes
      rw [if_pos ⟨h3, h4⟩]
    rw [hstrip]

/-- Witness for C9: the quoted token `'tank/x'` is stripped to `tank/x`. -/
theorem claim_C9_witness :
    classify 1 (⟨grammarChars ["destroy".data]
        (quoteChar :: "tank/x".data ++ [quoteChar])
        (strerror .datasetBusy).data⟩ : String)
      = some (.datasetBusy,
          (⟨((quoteChar :: "tank/x".data ++ [quoteChar]).drop 1).dropLast⟩
            : String)) :=
  claim_C9_single_quote_token.2 (quoteChar :: "tank/x".data ++ [quoteChar])
    (by decide) (by decide) (by decide) (by decide)

/-- Claim C10: in the remote backend (non-timeout path), the only data
streamed to the remote stdin handle is the file object found under the
`stdin` option when it is truthy — a falsy or missing `stdin` streams
nothing, an `input` option never reaches the remote side — and the remote
stdin handle is closed unconditionally. -/
theorem claim_C10_remote_stdin_only (sess : SSHExec) (popenargs : List String)
    (check : Bool) (kwargs : Kwargs) (h : sess.timesOut = false) :
    ((runRemote sess popenargs check kwargs).1.streamedToStdin
      = if pyTruthy (kwGetD kwargs "stdin" .none)
        then some (kwGetD kwargs "stdin" .none) else Option.none)
    ∧ (runRemote sess popenargs check kwargs).1.stdinClosed = true
    ∧ ∀ v : PyVal, (runRemote sess popenargs check (kwSet kwargs "input" v)).1
        = (runRemote sess popenargs check kwargs).1 := by
  have htr : ∀ kw : Kwargs, (runRemote sess popenargs check kw).1
      = ⟨if pyTruthy (kwGetD kw "stdin" .none)
          then some (kwGetD kw "stdin" .none) else Option.none, true⟩ := by
    intro kw
    unfold runRemote
    rw [h]
    rw [if_neg (by simp)]
    by_cases hc : check = true ∧ sess.exitStatus ≠ 0
    · rw [if_pos hc]
    · rw [if_neg hc]
  refine ⟨by rw [htr], by rw [htr], ?_⟩
  intro v
  rw [htr, htr, kwGetD_kwSet_ne kwargs "input" "stdin" v .none (by decide)]

/-- Witness for C10: a session that does not time out, with a file object
under `stdin` and a byte payload under `input`: only the file object is
streamed, the handle is closed, and dropping the `input` entry leaves the
interaction unchanged. -/
theorem claim_C10_witness :
    ((runRemote ⟨false, 0, "out", ""⟩ ["zfs", "recv", "tank"] false
        [("stdin", PyVal.fileHandle 3), ("input", PyVal.bytes [1, 2])]).1.streamedToStdin
      = if pyTruthy (kwGetD [("stdin", PyVal.fileHandle 3),
            ("input", PyVal.bytes [1, 2])] "stdin" .none)
        then some (kwGetD [("stdin", PyVal.fileHandle 3),
            ("input", PyVal.bytes [1, 2])] "stdin" .none) else Option.none)
    ∧ (runRemote ⟨false, 0, "out", ""⟩ ["zfs", "recv", "tank"] false
        [("stdin", PyVal.fileHandle 3), ("input", PyVal.bytes [1, 2])]).1.stdinClosed
      = true
    ∧ ∀ v : PyVal, (runRemote ⟨false, 0, "out", ""⟩ ["zfs", "recv", "tank"] false
        (kwSet [("stdin", PyVal.fileHandle 3), ("input", PyVal.bytes [1, 2])]
          "input" v)).1
      = (runRemote ⟨false, 0, "out", ""⟩ ["zfs", "recv", "tank"] false
          [("stdin", PyVal.fileHandle 3), ("input", PyVal.bytes [1, 2])]).1 :=
  claim_C10_remote_stdin_only ⟨false, 0, "out", ""⟩ ["zfs", "recv", "tank"]
    false [("stdin", PyVal.fileHandle 3), ("input", PyVal.bytes [1, 2])] rfl

/-- Witness for C1: with a request carrying an explicit `input=None` and no
text-decoding flag, normalization installs the empty byte string, and
`check_output` behaves exactly as with an explicit `input=b""`. -/
theorem claim_C1_witness :
    kwGet (normalizeInput [("input", PyVal.none)]) "input"
      = some (PyVal.bytes [])
    ∧ check_output ⟨fun _ _ _ _ => .completed 0 (some "x\ty") ""⟩
        ["zfs", "list"] Option.none Option.none [("input", PyVal.none)]
      = check_output ⟨fun _ _ _ _ => .completed 0 (some "x\ty") ""⟩
        ["zfs", "list"] Option.none Option.none
        (kwSet [("input", PyVal.none)] "input" (PyVal.bytes [])) :=
  claim_C1_input_none_normalization ⟨fun _ _ _ _ => .completed 0 (some "x\ty") ""⟩
    ["zfs", "list"] Option.none Option.none [("input", PyVal.none)] rfl

/-- Witness for C6: a command exiting 1 with a recognised busy message makes
`check_output` raise the typed busy error. -/
theorem claim_C6_witness :
    check_output ⟨fun _ _ _ _ => .completed 1 (some "")
        "cannot destroy tank/c: dataset is busy"⟩
      ["zfs", "destroy", "tank/c"] Option.none Option.none []
      = .zfsRaised .datasetBusy "tank/c" :=
  (claim_C6_check_output_orchestration
    ⟨fun _ _ _ _ => .completed 1 (some "") "cannot destroy tank/c: dataset is busy"⟩
    ["zfs", "destroy", "tank/c"] Option.none Option.none [] 1 (some "")
    "cannot destroy tank/c: dataset is busy" rfl rfl rfl).1
    .datasetBusy "tank/c" (by decide)
